import Mathlib

/-!
Verification development for the Möbius strip sampler and measurement engine
(`src/mobius_strip.py`, class `MobiusStrip`).

The Python class stores three shape parameters `R`, `w`, `n` and derives, at
construction time, the parameter samples `u = np.linspace(0, 2π, n)`,
`v = np.linspace(-w/2, w/2, n)`, the meshgrid arrays `U`, `V`, and the
coordinate grids `X`, `Y`, `Z`.  The two measurements are `surface_area`
(numpy gradient + cross-product-magnitude Riemann sum) and `edge_length`
(polyline length of the `v = +w/2` boundary curve).

The embedding below uses exact real arithmetic (`ℝ`); note that Lean's `ℝ`
uses the junk convention `x / 0 = 0`, whereas IEEE arithmetic produces
`nan`/`inf` — where a genuine division by zero occurs in the source we prove
that the divisor is zero rather than reasoning about `nan` values.
Python `IndexError`s (out-of-bounds array reads) are modelled with `Option`:
`l[i]?` is `none` exactly when Python raises.
-/

open Real Finset

noncomputable section

/-- The shape parameters stored by `MobiusStrip.__init__` (`self.R`, `self.w`,
`self.n`).  All other attributes set by `__init__` (`self.u`, `self.v`,
`self.U`, `self.V`, `self.X`, `self.Y`, `self.Z`) are deterministic functions
of these three fields and are modelled as the definitions below. -/
structure MobiusStrip where
  R : ℝ
  w : ℝ
  n : ℕ

namespace MobiusStrip

/-- Entry `i` of `numpy.linspace a b n` (endpoints included):
`a + (b - a) * i / (n - 1)`.  For `n = 1` the convention `0 / 0 = 0` gives the
single sample `a`, matching `np.linspace(a, b, 1) = [a]`. -/
def linspaceF (a b : ℝ) (n : ℕ) (i : ℕ) : ℝ := a + (b - a) * i / ((n : ℝ) - 1)

/-- `numpy.linspace a b n` as a list of `n` samples. -/
def linspace (a b : ℝ) (n : ℕ) : List ℝ := (List.range n).map (linspaceF a b n)

/-- `self.u = np.linspace(0, 2 * np.pi, n)`. -/
def u (m : MobiusStrip) : List ℝ := linspace 0 (2 * π) m.n

/-- `self.v = np.linspace(-w / 2, w / 2, n)`. -/
def v (m : MobiusStrip) : List ℝ := linspace (-m.w / 2) (m.w / 2) m.n

/-- Pointwise value of the sample `u[j]`. -/
def uF (m : MobiusStrip) (j : ℕ) : ℝ := linspaceF 0 (2 * π) m.n j

/-- Pointwise value of the sample `v[i]`. -/
def vF (m : MobiusStrip) (i : ℕ) : ℝ := linspaceF (-m.w / 2) (m.w / 2) m.n i

/-- An `n × n` grid (list of `n` rows of length `n`) built from an index
function; row index first. -/
def mkGrid (f : ℕ → ℕ → ℝ) (n : ℕ) : List (List ℝ) :=
  (List.range n).map (fun i => (List.range n).map (f i))

/-- Entry `(i, j)` of a stored grid, with junk default `0` out of range. -/
def entry (g : List (List ℝ)) (i j : ℕ) : ℝ := (g.getD i []).getD j 0

/-- `self.U` from `np.meshgrid(self.u, self.v)`: `U[i][j] = u[j]`
(row index = `v` index, column index = `u` index). -/
def U (m : MobiusStrip) : List (List ℝ) := mkGrid (fun _ j => uF m j) m.n

/-- `self.V` from `np.meshgrid(self.u, self.v)`: `V[i][j] = v[i]`. -/
def V (m : MobiusStrip) : List (List ℝ) := mkGrid (fun i _ => vF m i) m.n

/-- Entry `(i, j)` of `X = (self.R + V * np.cos(U / 2)) * np.cos(U)` from
`_compute_mesh`, applied element-wise at `U[i][j] = u[j]`, `V[i][j] = v[i]`. -/
def Xf (m : MobiusStrip) (i j : ℕ) : ℝ :=
  (m.R + vF m i * Real.cos (uF m j / 2)) * Real.cos (uF m j)

/-- Entry `(i, j)` of `Y = (self.R + V * np.cos(U / 2)) * np.sin(U)`. -/
def Yf (m : MobiusStrip) (i j : ℕ) : ℝ :=
  (m.R + vF m i * Real.cos (uF m j / 2)) * Real.sin (uF m j)

/-- Entry `(i, j)` of `Z = V * np.sin(U / 2)`. -/
def Zf (m : MobiusStrip) (i j : ℕ) : ℝ := vF m i * Real.sin (uF m j / 2)

/-- `self.X` as the stored `n × n` array. -/
def X (m : MobiusStrip) : List (List ℝ) := mkGrid m.Xf m.n

/-- `self.Y` as the stored `n × n` array. -/
def Y (m : MobiusStrip) : List (List ℝ) := mkGrid m.Yf m.n

/-- `self.Z` as the stored `n × n` array. -/
def Z (m : MobiusStrip) : List (List ℝ) := mkGrid m.Zf m.n

/-- One axis of `numpy.gradient` with uniform scalar spacing `h` and the
default `edge_order = 1`, on `n` samples: one-sided difference
`(a 1 - a 0) / h` at the left edge, one-sided `(a (n-1) - a (n-2)) / h` at the
right edge, central difference `(a (j+1) - a (j-1)) / (2h)` in the interior. -/
def grad1 (a : ℕ → ℝ) (h : ℝ) (n : ℕ) (j : ℕ) : ℝ :=
  if j = 0 then (a 1 - a 0) / h
  else if j = n - 1 then (a (n - 1) - a (n - 2)) / h
  else (a (j + 1) - a (j - 1)) / (2 * h)

/-- `Xu = np.gradient(self.X, dU, axis=1)` at `(i, j)` (`u` varies along
columns), for a given step `dU`. -/
def XuW (m : MobiusStrip) (dU : ℝ) (i j : ℕ) : ℝ :=
  grad1 (fun j' => Xf m i j') dU m.n j

/-- `Yu = np.gradient(self.Y, dU, axis=1)` at `(i, j)`. -/
def YuW (m : MobiusStrip) (dU : ℝ) (i j : ℕ) : ℝ :=
  grad1 (fun j' => Yf m i j') dU m.n j

/-- `Zu = np.gradient(self.Z, dU, axis=1)` at `(i, j)`. -/
def ZuW (m : MobiusStrip) (dU : ℝ) (i j : ℕ) : ℝ :=
  grad1 (fun j' => Zf m i j') dU m.n j

/-- `Xv = np.gradient(self.X, dV, axis=0)` at `(i, j)` (`v` varies along
rows), for a given step `dV`. -/
def XvW (m : MobiusStrip) (dV : ℝ) (i j : ℕ) : ℝ :=
  grad1 (fun i' => Xf m i' j) dV m.n i

/-- `Yv = np.gradient(self.Y, dV, axis=0)` at `(i, j)`. -/
def YvW (m : MobiusStrip) (dV : ℝ) (i j : ℕ) : ℝ :=
  grad1 (fun i' => Yf m i' j) dV m.n i

/-- `Zv = np.gradient(self.Z, dV, axis=0)` at `(i, j)`. -/
def ZvW (m : MobiusStrip) (dV : ℝ) (i j : ℕ) : ℝ :=
  grad1 (fun i' => Zf m i' j) dV m.n i

/-- `cross_prod[i][j] = sqrt((Yu*Zv - Zu*Yv)^2 + (Zu*Xv - Xu*Zv)^2 +
(Xu*Yv - Yu*Xv)^2)` from `surface_area`. -/
def crossMagW (m : MobiusStrip) (dU dV : ℝ) (i j : ℕ) : ℝ :=
  Real.sqrt
    ((YuW m dU i j * ZvW m dV i j - ZuW m dU i j * YvW m dV i j) ^ 2 +
     (ZuW m dU i j * XvW m dV i j - XuW m dU i j * ZvW m dV i j) ^ 2 +
     (XuW m dU i j * YvW m dV i j - YuW m dU i j * XvW m dV i j) ^ 2)

/-- The step `dU = self.u[1] - self.u[0]` (pointwise value). -/
def dUval (m : MobiusStrip) : ℝ := uF m 1 - uF m 0

/-- The step `dV = self.v[1] - self.v[0]` (pointwise value). -/
def dVval (m : MobiusStrip) : ℝ := vF m 1 - vF m 0

/-- The value `np.sum(cross_prod) * dU * dV` returned by `surface_area` when
the index reads succeed. -/
def surfaceAreaVal (m : MobiusStrip) : ℝ :=
  (∑ i ∈ Finset.range m.n, ∑ j ∈ Finset.range m.n,
      crossMagW m (dUval m) (dVval m) i j) * dUval m * dVval m

/-- `surface_area(self)`.  The method first reads `self.u[1]`, `self.u[0]`,
`self.v[1]`, `self.v[0]`; an out-of-bounds read raises `IndexError`, modelled
by `none`. -/
def surfaceArea? (m : MobiusStrip) : Option ℝ := do
  let u1 ← m.u[1]?
  let u0 ← m.u[0]?
  let v1 ← m.v[1]?
  let v0 ← m.v[0]?
  let dU := u1 - u0
  let dV := v1 - v0
  pure ((∑ i ∈ Finset.range m.n, ∑ j ∈ Finset.range m.n,
      crossMagW m dU dV i j) * dU * dV)

/-- `scipy.spatial.distance.euclidean` on 3-vectors. -/
def euclidean3 (p q : ℝ × ℝ × ℝ) : ℝ :=
  Real.sqrt ((p.1 - q.1) ^ 2 + (p.2.1 - q.2.1) ^ 2 + (p.2.2 - q.2.2) ^ 2)

/-- `edge_coords[k]` from `edge_length`: the boundary point at `v = w/2`,
computed by the formulas written inline in `edge_length` at `u = u[k]`. -/
def edgePoint (m : MobiusStrip) (k : ℕ) : ℝ × ℝ × ℝ :=
  ((m.R + m.w / 2 * Real.cos (uF m k / 2)) * Real.cos (uF m k),
   (m.R + m.w / 2 * Real.cos (uF m k / 2)) * Real.sin (uF m k),
   m.w / 2 * Real.sin (uF m k / 2))

/-- `edge_length(self)`: the sum of Euclidean distances between consecutive
points of `edge_coords` (`n - 1` segments; `0` when `n ≤ 1`). -/
def edgeLength (m : MobiusStrip) : ℝ :=
  ∑ i ∈ Finset.range (m.n - 1), euclidean3 (edgePoint m i) (edgePoint m (i + 1))

/-- The method call `self.surface_area()` as a state transformer: the body of
`surface_area` contains no attribute assignment, so the post-state is the
pre-state. -/
def surfaceAreaCall (m : MobiusStrip) : Option ℝ × MobiusStrip :=
  (surfaceArea? m, m)

/-- The method call `self.edge_length()` as a state transformer: the body of
`edge_length` contains no attribute assignment, so the post-state is the
pre-state. -/
def edgeLengthCall (m : MobiusStrip) : ℝ × MobiusStrip :=
  (edgeLength m, m)

/-- Spec-side (§4.1): the shared parametric map `(u, v) ↦ (x, y, z)` of the
Möbius strip with central radius `R`. -/
def surfacePoint (R uu vv : ℝ) : ℝ × ℝ × ℝ :=
  ((R + vv * Real.cos (uu / 2)) * Real.cos uu,
   (R + vv * Real.cos (uu / 2)) * Real.sin uu,
   vv * Real.sin (uu / 2))

/-- Spec-side: cross product of two 3-vectors. -/
def cross3 (a b : ℝ × ℝ × ℝ) : ℝ × ℝ × ℝ :=
  (a.2.1 * b.2.2 - a.2.2 * b.2.1,
   a.2.2 * b.1 - a.1 * b.2.2,
   a.1 * b.2.1 - a.2.1 * b.1)

/-- Spec-side: Euclidean magnitude of a 3-vector. -/
def norm3 (p : ℝ × ℝ × ℝ) : ℝ :=
  Real.sqrt (p.1 ^ 2 + p.2.1 ^ 2 + p.2.2 ^ 2)

/-- Spec-side difference scheme (§4.2 step 2): central differences at interior
points, one-sided differences at the first and last index. -/
def specDiff (a : ℕ → ℝ) (h : ℝ) (n j : ℕ) : ℝ :=
  if j = 0 then (a 1 - a 0) / h
  else if j = n - 1 then (a (n - 1) - a (n - 2)) / h
  else (a (j + 1) - a (j - 1)) / (2 * h)

/-- Spec-side: derivative estimate of a stored grid with respect to `u`
(varying along columns, step `h`). -/
def specDu (g : List (List ℝ)) (h : ℝ) (n i j : ℕ) : ℝ :=
  specDiff (fun j' => entry g i j') h n j

/-- Spec-side: derivative estimate of a stored grid with respect to `v`
(varying along rows, step `h`). -/
def specDv (g : List (List ℝ)) (h : ℝ) (n i j : ℕ) : ℝ :=
  specDiff (fun i' => entry g i' j) h n i

/-- Spec-side surface area (claim C1): the sum over all `n × n` grid cells of
the Euclidean magnitude of the cross product of the tangent vectors
`(Xu, Yu, Zu)` and `(Xv, Yv, Zv)`, multiplied by `dU * dV`, where
`dU = u[1] - u[0]`, `dV = v[1] - v[0]` and the six partial-derivative grids
come from `specDiff` applied to the stored coordinate grids. -/
def specSurfaceArea (m : MobiusStrip) : ℝ :=
  (∑ i ∈ Finset.range m.n, ∑ j ∈ Finset.range m.n,
      norm3 (cross3
        (specDu m.X (m.u.getD 1 0 - m.u.getD 0 0) m.n i j,
         specDu m.Y (m.u.getD 1 0 - m.u.getD 0 0) m.n i j,
         specDu m.Z (m.u.getD 1 0 - m.u.getD 0 0) m.n i j)
        (specDv m.X (m.v.getD 1 0 - m.v.getD 0 0) m.n i j,
         specDv m.Y (m.v.getD 1 0 - m.v.getD 0 0) m.n i j,
         specDv m.Z (m.v.getD 1 0 - m.v.getD 0 0) m.n i j)))
    * (m.u.getD 1 0 - m.u.getD 0 0) * (m.v.getD 1 0 - m.v.getD 0 0)

/-! ### Basic lemmas about the stored arrays -/

theorem linspace_length (a b : ℝ) (n : ℕ) : (linspace a b n).length = n := by
  simp [linspace]

theorem linspace_getElem? (a b : ℝ) (n i : ℕ) (hi : i < n) :
    (linspace a b n)[i]? = some (linspaceF a b n i) := by
  simp [linspace, List.getElem?_map, List.getElem?_range, hi]

theorem linspace_getD (a b : ℝ) (n i : ℕ) (hi : i < n) :
    (linspace a b n).getD i 0 = linspaceF a b n i := by
  simp [List.getD_eq_getElem?_getD, linspace_getElem? a b n i hi]

theorem u_length (m : MobiusStrip) : m.u.length = m.n := linspace_length _ _ _

theorem v_length (m : MobiusStrip) : m.v.length = m.n := linspace_length _ _ _

theorem u_getElem? (m : MobiusStrip) (i : ℕ) (hi : i < m.n) :
    m.u[i]? = some (uF m i) := linspace_getElem? _ _ _ _ hi

theorem v_getElem? (m : MobiusStrip) (i : ℕ) (hi : i < m.n) :
    m.v[i]? = some (vF m i) := linspace_getElem? _ _ _ _ hi

theorem u_getD (m : MobiusStrip) (i : ℕ) (hi : i < m.n) :
    m.u.getD i 0 = uF m i := linspace_getD _ _ _ _ hi

theorem v_getD (m : MobiusStrip) (i : ℕ) (hi : i < m.n) :
    m.v.getD i 0 = vF m i := linspace_getD _ _ _ _ hi

theorem mkGrid_length (f : ℕ → ℕ → ℝ) (n : ℕ) : (mkGrid f n).length = n := by
  simp [mkGrid]

theorem mkGrid_getD (f : ℕ → ℕ → ℝ) (n i : ℕ) (hi : i < n) :
    (mkGrid f n).getD i [] = (List.range n).map (f i) := by
  simp [mkGrid, List.getD_eq_getElem?_getD, List.getElem?_map, List.getElem?_range, hi]

theorem mkGrid_row_length (f : ℕ → ℕ → ℝ) (n i : ℕ) (hi : i < n) :
    ((mkGrid f n).getD i []).length = n := by
  rw [mkGrid_getD f n i hi]; simp

theorem entry_mkGrid (f : ℕ → ℕ → ℝ) (n i j : ℕ) (hi : i < n) (hj : j < n) :
    entry (mkGrid f n) i j = f i j := by
  unfold entry
  rw [mkGrid_getD f n i hi]
  simp [List.getD_eq_getElem?_getD, List.getElem?_map, List.getElem?_range, hj]

theorem entry_U (m : MobiusStrip) (i j : ℕ) (hi : i < m.n) (hj : j < m.n) :
    entry m.U i j = uF m j := entry_mkGrid _ _ _ _ hi hj

theorem entry_V (m : MobiusStrip) (i j : ℕ) (hi : i < m.n) (hj : j < m.n) :
    entry m.V i j = vF m i := entry_mkGrid _ _ _ _ hi hj

theorem entry_X (m : MobiusStrip) (i j : ℕ) (hi : i < m.n) (hj : j < m.n) :
    entry m.X i j = Xf m i j := entry_mkGrid _ _ _ _ hi hj

theorem entry_Y (m : MobiusStrip) (i j : ℕ) (hi : i < m.n) (hj : j < m.n) :
    entry m.Y i j = Yf m i j := entry_mkGrid _ _ _ _ hi hj

theorem entry_Z (m : MobiusStrip) (i j : ℕ) (hi : i < m.n) (hj : j < m.n) :
    entry m.Z i j = Zf m i j := entry_mkGrid _ _ _ _ hi hj

/-- When `n ≥ 2` all four index reads of `surface_area` succeed and the method
returns `surfaceAreaVal`. -/
theorem surfaceArea?_eq (m : MobiusStrip) (hn : 2 ≤ m.n) :
    surfaceArea? m = some (surfaceAreaVal m) := by
  have h0 : 0 < m.n := by omega
  have h1 : 1 < m.n := by omega
  rw [surfaceArea?, u_getElem? m 1 h1, u_getElem? m 0 h0,
    v_getElem? m 1 h1, v_getElem? m 0 h0]
  rfl

/-- `grad1` only reads its sample function at indices `< n` (for `2 ≤ n` and an
evaluation index `< n`), so pointwise-equal samples give equal gradients. -/
theorem grad1_congr (a b : ℕ → ℝ) (h : ℝ) (n j : ℕ) (hn : 2 ≤ n) (hj : j < n)
    (hab : ∀ k, k < n → a k = b k) : grad1 a h n j = grad1 b h n j := by
  unfold grad1
  split_ifs with hj0 hjl
  · rw [hab 1 (by omega), hab 0 (by omega)]
  · rw [hab (n - 1) (by omega), hab (n - 2) (by omega)]
  · rw [hab (j + 1) (by omega), hab (j - 1) (by omega)]

/-! ### Claim theorems -/

/-- Claim C2: for every surface instance, the coordinate grids are computed
element-wise from the parameter grids by exactly
`X = (R + V·cos(U/2))·cos(U)`, `Y = (R + V·cos(U/2))·sin(U)`,
`Z = V·sin(U/2)`, including the `/2` factor in the half-twist phase. -/
theorem c2_mesh_formulas (m : MobiusStrip) (i j : ℕ) (hi : i < m.n) (hj : j < m.n) :
    entry m.X i j =
      (m.R + entry m.V i j * Real.cos (entry m.U i j / 2)) * Real.cos (entry m.U i j) ∧
    entry m.Y i j =
      (m.R + entry m.V i j * Real.cos (entry m.U i j / 2)) * Real.sin (entry m.U i j) ∧
    entry m.Z i j = entry m.V i j * Real.sin (entry m.U i j / 2) := by
  rw [entry_X m i j hi hj, entry_Y m i j hi hj, entry_Z m i j hi hj,
    entry_U m i j hi hj, entry_V m i j hi hj]
  exact ⟨rfl, rfl, rfl⟩

/-- Witness for C2 at the concrete instance `R = 1`, `w = 1`, `n = 2`,
cell `(0, 0)`. -/
theorem c2_mesh_formulas_witness :
    (0 < (MobiusStrip.mk 1 1 2).n ∧ 0 < (MobiusStrip.mk 1 1 2).n) ∧
    (entry (MobiusStrip.mk 1 1 2).X 0 0 =
      ((MobiusStrip.mk 1 1 2).R +
        entry (MobiusStrip.mk 1 1 2).V 0 0 *
          Real.cos (entry (MobiusStrip.mk 1 1 2).U 0 0 / 2)) *
        Real.cos (entry (MobiusStrip.mk 1 1 2).U 0 0) ∧
    entry (MobiusStrip.mk 1 1 2).Y 0 0 =
      ((MobiusStrip.mk 1 1 2).R +
        entry (MobiusStrip.mk 1 1 2).V 0 0 *
          Real.cos (entry (MobiusStrip.mk 1 1 2).U 0 0 / 2)) *
        Real.sin (entry (MobiusStrip.mk 1 1 2).U 0 0) ∧
    entry (MobiusStrip.mk 1 1 2).Z 0 0 =
      entry (MobiusStrip.mk 1 1 2).V 0 0 *
        Real.sin (entry (MobiusStrip.mk 1 1 2).U 0 0 / 2)) :=
  ⟨⟨by decide, by decide⟩, c2_mesh_formulas (MobiusStrip.mk 1 1 2) 0 0 (by decide) (by decide)⟩

/-- Claim C3: `edge_length` evaluates, for each sample of `u`, the boundary
point at `v = +w/2` with the same parametric equations as the surface sampler
(`surfacePoint`, which the sampler's grid formulas `Xf`, `Yf`, `Zf` realise),
and returns the sum of the `n - 1` Euclidean distances between consecutive
boundary points. -/
theorem c3_edge_length_spec (m : MobiusStrip) (k i j : ℕ) (hk : k < m.n) :
    edgePoint m k = surfacePoint m.R (m.u.getD k 0) (m.w / 2) ∧
    (Xf m i j, Yf m i j, Zf m i j) = surfacePoint m.R (uF m j) (vF m i) ∧
    edgeLength m =
      ∑ a ∈ Finset.range (m.n - 1), euclidean3 (edgePoint m a) (edgePoint m (a + 1)) := by
  refine ⟨?_, rfl, rfl⟩
  rw [u_getD m k hk]
  rfl

/-- Witness for C3 at the concrete instance `R = 1`, `w = 1`, `n = 2`,
sample `k = 0` and mesh cell `(0, 1)`. -/
theorem c3_edge_length_spec_witness :
    0 < (MobiusStrip.mk 1 1 2).n ∧
    (edgePoint (MobiusStrip.mk 1 1 2) 0 =
      surfacePoint (MobiusStrip.mk 1 1 2).R ((MobiusStrip.mk 1 1 2).u.getD 0 0)
        ((MobiusStrip.mk 1 1 2).w / 2) ∧
    (Xf (MobiusStrip.mk 1 1 2) 0 1, Yf (MobiusStrip.mk 1 1 2) 0 1,
        Zf (MobiusStrip.mk 1 1 2) 0 1) =
      surfacePoint (MobiusStrip.mk 1 1 2).R (uF (MobiusStrip.mk 1 1 2) 1)
        (vF (MobiusStrip.mk 1 1 2) 0) ∧
    edgeLength (MobiusStrip.mk 1 1 2) =
      ∑ a ∈ Finset.range ((MobiusStrip.mk 1 1 2).n - 1),
        euclidean3 (edgePoint (MobiusStrip.mk 1 1 2) a)
          (edgePoint (MobiusStrip.mk 1 1 2) (a + 1))) :=
  ⟨by decide, c3_edge_length_spec (MobiusStrip.mk 1 1 2) 0 0 1 (by decide)⟩

/-- Counterexample to claim C4: constructing with the invalid resolution
`n = 0` (and valid `R = w = 1`) does not fail: it silently produces empty
arrays, the very outcome the claim says is prevented by a raised
`InvalidParameter` error.  (The source constructor contains no validation and
no raise at all.) -/
theorem c4_cex_constructor_accepts_invalid :
    (MobiusStrip.mk 1 1 0).u = [] ∧ (MobiusStrip.mk 1 1 0).X = [] :=
  ⟨rfl, rfl⟩

/-- Claim C4 as amended: the constructor performs no validation; for every
`R`, `w`, `n` — including `n < 2` and non-positive `R`, `w` — it succeeds,
stores the parameters unchanged, and silently produces the derived arrays
(of length `n`, empty when `n = 0`); no `InvalidParameter` error exists. -/
theorem c4_amended_no_validation (R w : ℝ) (n : ℕ) :
    (MobiusStrip.mk R w n).R = R ∧ (MobiusStrip.mk R w n).w = w ∧
    (MobiusStrip.mk R w n).n = n ∧
    (MobiusStrip.mk R w n).u.length = n ∧ (MobiusStrip.mk R w n).v.length = n ∧
    (MobiusStrip.mk R w n).X.length = n :=
  ⟨rfl, rfl, rfl, u_length _, v_length _, mkGrid_length _ _⟩

/-- Claim C7: for every valid instance, `u` and `v` have length `n`, the
grids `U`, `V`, `X`, `Y`, `Z` are all `n × n`, with `U[i][j] = u[j]` and
`V[i][j] = v[i]`, and the stored state (hence every grid) is unchanged by the
measurement operations. -/
theorem c7_grid_shape_invariant (m : MobiusStrip) (i j : ℕ) (hi : i < m.n) (hj : j < m.n) :
    m.u.length = m.n ∧ m.v.length = m.n ∧
    m.U.length = m.n ∧ m.V.length = m.n ∧ m.X.length = m.n ∧
    m.Y.length = m.n ∧ m.Z.length = m.n ∧
    (m.U.getD i []).length = m.n ∧ (m.V.getD i []).length = m.n ∧
    (m.X.getD i []).length = m.n ∧ (m.Y.getD i []).length = m.n ∧
    (m.Z.getD i []).length = m.n ∧
    entry m.U i j = m.u.getD j 0 ∧ entry m.V i j = m.v.getD i 0 ∧
    (surfaceAreaCall m).2.U = m.U ∧ (surfaceAreaCall m).2.X = m.X ∧
    (edgeLengthCall m).2.U = m.U ∧ (edgeLengthCall m).2.X = m.X := by
  refine ⟨u_length m, v_length m, mkGrid_length _ _, mkGrid_length _ _,
    mkGrid_length _ _, mkGrid_length _ _, mkGrid_length _ _,
    mkGrid_row_length _ _ _ hi, mkGrid_row_length _ _ _ hi, mkGrid_row_length _ _ _ hi,
    mkGrid_row_length _ _ _ hi, mkGrid_row_length _ _ _ hi, ?_, ?_, rfl, rfl, rfl, rfl⟩
  · rw [entry_U m i j hi hj, u_getD m j hj]
  · rw [entry_V m i j hi hj, v_getD m i hi]

/-- Witness for C7 at the concrete instance `R = 1`, `w = 1`, `n = 2`,
indices `(0, 1)`. -/
theorem c7_grid_shape_invariant_witness :
    (0 < (MobiusStrip.mk 1 1 2).n ∧ 1 < (MobiusStrip.mk 1 1 2).n) ∧
    ((MobiusStrip.mk 1 1 2).u.length = (MobiusStrip.mk 1 1 2).n ∧
    (MobiusStrip.mk 1 1 2).v.length = (MobiusStrip.mk 1 1 2).n ∧
    (MobiusStrip.mk 1 1 2).U.length = (MobiusStrip.mk 1 1 2).n ∧
    (MobiusStrip.mk 1 1 2).V.length = (MobiusStrip.mk 1 1 2).n ∧
    (MobiusStrip.mk 1 1 2).X.length = (MobiusStrip.mk 1 1 2).n ∧
    (MobiusStrip.mk 1 1 2).Y.length = (MobiusStrip.mk 1 1 2).n ∧
    (MobiusStrip.mk 1 1 2).Z.length = (MobiusStrip.mk 1 1 2).n ∧
    ((MobiusStrip.mk 1 1 2).U.getD 0 []).length = (MobiusStrip.mk 1 1 2).n ∧
    ((MobiusStrip.mk 1 1 2).V.getD 0 []).length = (MobiusStrip.mk 1 1 2).n ∧
    ((MobiusStrip.mk 1 1 2).X.getD 0 []).length = (MobiusStrip.mk 1 1 2).n ∧
    ((MobiusStrip.mk 1 1 2).Y.getD 0 []).length = (MobiusStrip.mk 1 1 2).n ∧
    ((MobiusStrip.mk 1 1 2).Z.getD 0 []).length = (MobiusStrip.mk 1 1 2).n ∧
    entry (MobiusStrip.mk 1 1 2).U 0 1 = (MobiusStrip.mk 1 1 2).u.getD 1 0 ∧
    entry (MobiusStrip.mk 1 1 2).V 0 1 = (MobiusStrip.mk 1 1 2).v.getD 0 0 ∧
    (surfaceAreaCall (MobiusStrip.mk 1 1 2)).2.U = (MobiusStrip.mk 1 1 2).U ∧
    (surfaceAreaCall (MobiusStrip.mk 1 1 2)).2.X = (MobiusStrip.mk 1 1 2).X ∧
    (edgeLengthCall (MobiusStrip.mk 1 1 2)).2.U = (MobiusStrip.mk 1 1 2).U ∧
    (edgeLengthCall (MobiusStrip.mk 1 1 2)).2.X = (MobiusStrip.mk 1 1 2).X) :=
  ⟨⟨by decide, by decide⟩,
    c7_grid_shape_invariant (MobiusStrip.mk 1 1 2) 0 1 (by decide) (by decide)⟩

/-- Claim C8: the parametric equations realise the Möbius half-twist
identification: for every `R` and `v`, the surface point at `(u = 2π, v)` is
the surface point at `(u = 0, -v)`. -/
theorem c8_half_twist_identification (R vv : ℝ) :
    surfacePoint R (2 * π) vv = surfacePoint R 0 (-vv) := by
  unfold surfacePoint
  rw [show 2 * π / 2 = π by ring, Real.cos_pi, Real.sin_pi,
    Real.cos_two_pi, Real.sin_two_pi]
  norm_num [Prod.ext_iff]

/-- Claim C9: the measurement methods mutate no state: each call returns the
pre-state unchanged (all fields, hence `R`, `w`, `n`, `u`, `v`, `U`, `V`,
`X`, `Y`, `Z`), and calling the methods repeatedly or in either order yields
the same values. -/
theorem c9_measurements_pure (m : MobiusStrip) :
    (surfaceAreaCall m).2 = m ∧ (edgeLengthCall m).2 = m ∧
    (surfaceAreaCall m).1 = surfaceArea? m ∧ (edgeLengthCall m).1 = edgeLength m ∧
    (surfaceAreaCall ((edgeLengthCall m).2)).1 = (surfaceAreaCall m).1 ∧
    (edgeLengthCall ((surfaceAreaCall m).2)).1 = (edgeLengthCall m).1 ∧
    (surfaceAreaCall ((surfaceAreaCall m).2)).1 = (surfaceAreaCall m).1 ∧
    (edgeLengthCall ((edgeLengthCall m).2)).1 = (edgeLengthCall m).1 ∧
    (surfaceAreaCall m).2.R = m.R ∧ (surfaceAreaCall m).2.w = m.w ∧
    (surfaceAreaCall m).2.n = m.n ∧ (surfaceAreaCall m).2.u = m.u ∧
    (surfaceAreaCall m).2.U = m.U ∧ (surfaceAreaCall m).2.X = m.X :=
  ⟨rfl, rfl, rfl, rfl, rfl, rfl, rfl, rfl, rfl, rfl, rfl, rfl, rfl, rfl⟩

/-- Claim C10: with `n = 1` the constructor succeeds and produces `1 × 1`
grids, `edge_length` returns `0` (empty segment sum), but `surface_area`
fails because the step-size computation reads `u[1]`, an out-of-bounds index
of the length-1 array `u`. -/
theorem c10_n_one_partial_failure (R w : ℝ) :
    (MobiusStrip.mk R w 1).u.length = 1 ∧
    (MobiusStrip.mk R w 1).U.length = 1 ∧
    ((MobiusStrip.mk R w 1).U.getD 0 []).length = 1 ∧
    (MobiusStrip.mk R w 1).X.length = 1 ∧
    ((MobiusStrip.mk R w 1).X.getD 0 []).length = 1 ∧
    edgeLength (MobiusStrip.mk R w 1) = 0 ∧
    (MobiusStrip.mk R w 1).u[1]? = none ∧
    surfaceArea? (MobiusStrip.mk R w 1) = none := by
  have hnone : (MobiusStrip.mk R w 1).u[1]? = none := by
    apply List.getElem?_eq_none
    rw [u_length]
  refine ⟨u_length _, mkGrid_length _ _, mkGrid_row_length _ _ _ (by norm_num),
    mkGrid_length _ _, mkGrid_row_length _ _ _ (by norm_num), ?_, hnone, ?_⟩
  · show ∑ i ∈ Finset.range (1 - 1), _ = (0 : ℝ)
    simp
  · rw [surfaceArea?, hnone]
    rfl

/-- The spec-side `u`-derivative of a stored grid agrees with the
source-side `numpy.gradient` of the corresponding index function. -/
theorem specDu_eq (m : MobiusStrip) (g : List (List ℝ)) (f : ℕ → ℕ → ℝ)
    (hg : ∀ a b : ℕ, a < m.n → b < m.n → entry g a b = f a b)
    (h : ℝ) (i j : ℕ) (hn : 2 ≤ m.n) (hi : i < m.n) (hj : j < m.n) :
    specDu g h m.n i j = grad1 (fun j' => f i j') h m.n j := by
  show grad1 (fun j' => entry g i j') h m.n j = _
  exact grad1_congr _ _ h m.n j hn hj (fun k hk => hg i k hi hk)

/-- The spec-side `v`-derivative of a stored grid agrees with the
source-side `numpy.gradient` of the corresponding index function. -/
theorem specDv_eq (m : MobiusStrip) (g : List (List ℝ)) (f : ℕ → ℕ → ℝ)
    (hg : ∀ a b : ℕ, a < m.n → b < m.n → entry g a b = f a b)
    (h : ℝ) (i j : ℕ) (hn : 2 ≤ m.n) (hi : i < m.n) (hj : j < m.n) :
    specDv g h m.n i j = grad1 (fun i' => f i' j) h m.n i := by
  show grad1 (fun i' => entry g i' j) h m.n i = _
  exact grad1_congr _ _ h m.n i hn hi (fun k hk => hg k j hk hj)

/-- The spec-side surface-area formula coincides with the value computed by
the source pipeline. -/
theorem specSurfaceArea_eq (m : MobiusStrip) (hn : 2 ≤ m.n) :
    specSurfaceArea m = surfaceAreaVal m := by
  have h0 : 0 < m.n := by omega
  have h1 : 1 < m.n := by omega
  unfold specSurfaceArea surfaceAreaVal
  rw [u_getD m 1 h1, u_getD m 0 h0, v_getD m 1 h1, v_getD m 0 h0]
  rw [show uF m 1 - uF m 0 = dUval m from rfl, show vF m 1 - vF m 0 = dVval m from rfl]
  refine congrArg (fun s => s * dUval m * dVval m) ?_
  refine Finset.sum_congr rfl fun i hi => Finset.sum_congr rfl fun j hj => ?_
  rw [Finset.mem_range] at hi hj
  rw [specDu_eq m m.X m.Xf (fun a b ha hb => entry_X m a b ha hb) (dUval m) i j hn hi hj,
    specDu_eq m m.Y m.Yf (fun a b ha hb => entry_Y m a b ha hb) (dUval m) i j hn hi hj,
    specDu_eq m m.Z m.Zf (fun a b ha hb => entry_Z m a b ha hb) (dUval m) i j hn hi hj,
    specDv_eq m m.X m.Xf (fun a b ha hb => entry_X m a b ha hb) (dVval m) i j hn hi hj,
    specDv_eq m m.Y m.Yf (fun a b ha hb => entry_Y m a b ha hb) (dVval m) i j hn hi hj,
    specDv_eq m m.Z m.Zf (fun a b ha hb => entry_Z m a b ha hb) (dVval m) i j hn hi hj]
  rfl

/-- Claim C1: for `n ≥ 2`, `surface_area` returns the sum over all `n × n`
grid cells of the Euclidean magnitude of the cross product of the tangent
vectors `(Xu, Yu, Zu)` and `(Xv, Yv, Zv)`, multiplied by `dU · dV`, where
`dU = u[1] - u[0]`, `dV = v[1] - v[0]`, and the six partial-derivative grids
are computed by central differences at interior points and one-sided
differences at the first and last row/column (`u` along columns, `v` along
rows) — the formula `specSurfaceArea` written from the spec's words. -/
theorem c1_surface_area_formula (m : MobiusStrip) (hn : 2 ≤ m.n) :
    surfaceArea? m = some (specSurfaceArea m) := by
  rw [surfaceArea?_eq m hn, specSurfaceArea_eq m hn]

/-- Witness for C1 at the concrete instance `R = 1`, `w = 1`, `n = 2`. -/
theorem c1_surface_area_formula_witness :
    2 ≤ (MobiusStrip.mk 1 1 2).n ∧
    surfaceArea? (MobiusStrip.mk 1 1 2) = some (specSurfaceArea (MobiusStrip.mk 1 1 2)) :=
  ⟨by decide, c1_surface_area_formula (MobiusStrip.mk 1 1 2) (by decide)⟩

/-- Counterexample to claim C5: for `w = 0` (with `R = 1`, `n = 2`) the
stored samples are `v = [0, 0]`, so the step `dV = v[1] - v[0]` is `0` — and
`surface_area` divides by `dV` (and by `2 * dV`) in every `v`-direction
difference quotient, so a division by zero *is* produced (in IEEE arithmetic
`0/0` is `nan`, and the float implementation returns `nan`, not `0`). -/
theorem c5_cex_division_by_zero :
    (MobiusStrip.mk 1 0 2).v = [0, 0] ∧ dVval (MobiusStrip.mk 1 0 2) = 0 := by
  constructor
  · show linspace (-(0:ℝ) / 2) ((0:ℝ) / 2) 2 = [0, 0]
    norm_num [linspace, linspaceF, List.range_succ]
  · show vF (MobiusStrip.mk 1 0 2) 1 - vF (MobiusStrip.mk 1 0 2) 0 = 0
    norm_num [vF, linspaceF]

/-- Claim C5 as amended: with `w = 0` and `n ≥ 2`, the divisor `dV` is `0`
(so the gradient's difference quotients divide by zero — `nan` in IEEE
arithmetic); under exact real arithmetic with the convention `x / 0 = 0` the
computed surface area is `0`, and `edge_length` computes without error. -/
theorem c5_amended_degenerate_width (R : ℝ) (n : ℕ) (hn : 2 ≤ n) :
    dVval (MobiusStrip.mk R 0 n) = 0 ∧
    surfaceArea? (MobiusStrip.mk R 0 n) = some 0 ∧
    edgeLengthCall (MobiusStrip.mk R 0 n) =
      (edgeLength (MobiusStrip.mk R 0 n), MobiusStrip.mk R 0 n) := by
  have hdV : dVval (MobiusStrip.mk R 0 n) = 0 := by
    show vF (MobiusStrip.mk R 0 n) 1 - vF (MobiusStrip.mk R 0 n) 0 = 0
    unfold vF linspaceF
    norm_num
  refine ⟨hdV, ?_, rfl⟩
  rw [surfaceArea?_eq _ hn]
  have : surfaceAreaVal (MobiusStrip.mk R 0 n) = 0 := by
    unfold surfaceAreaVal
    rw [hdV, mul_zero]
  rw [this]

/-- Witness for the amended C5 at `R = 1`, `n = 2`. -/
theorem c5_amended_degenerate_width_witness :
    2 ≤ 2 ∧
    (dVval (MobiusStrip.mk 1 0 2) = 0 ∧
    surfaceArea? (MobiusStrip.mk 1 0 2) = some 0 ∧
    edgeLengthCall (MobiusStrip.mk 1 0 2) =
      (edgeLength (MobiusStrip.mk 1 0 2), MobiusStrip.mk 1 0 2)) :=
  ⟨by decide, c5_amended_degenerate_width 1 2 (by decide)⟩

/-! ### Negating `w` reverses the `v` samples -/

/-- Negating `w` reverses the order of the `v` samples:
`v'[i] = v[n - 1 - i]`. -/
theorem vF_neg_w (R w : ℝ) (n i : ℕ) (hn : 2 ≤ n) (hi : i < n) :
    vF (MobiusStrip.mk R (-w) n) i = vF (MobiusStrip.mk R w n) (n - 1 - i) := by
  unfold vF linspaceF
  have h1 : i ≤ n - 1 := by omega
  have h2 : 1 ≤ n := by omega
  have hcast : ((n - 1 - i : ℕ) : ℝ) = (n : ℝ) - 1 - (i : ℝ) := by
    rw [Nat.cast_sub h1, Nat.cast_sub h2, Nat.cast_one]
  have hne : ((n : ℝ) - 1) ≠ 0 := by
    have : (2 : ℝ) ≤ (n : ℝ) := by exact_mod_cast hn
    intro h
    linarith
  rw [hcast]
  show -(-w) / 2 + (-w / 2 - -(-w) / 2) * (i : ℝ) / ((n : ℝ) - 1) =
    -w / 2 + (w / 2 - -w / 2) * ((n : ℝ) - 1 - (i : ℝ)) / ((n : ℝ) - 1)
  field_simp
  ring

/-- Negating `w` reverses the rows of the `X` grid. -/
theorem Xf_neg_w (R w : ℝ) (n i j : ℕ) (hn : 2 ≤ n) (hi : i < n) :
    Xf (MobiusStrip.mk R (-w) n) i j = Xf (MobiusStrip.mk R w n) (n - 1 - i) j := by
  unfold Xf
  rw [vF_neg_w R w n i hn hi]
  rfl

/-- Negating `w` reverses the rows of the `Y` grid. -/
theorem Yf_neg_w (R w : ℝ) (n i j : ℕ) (hn : 2 ≤ n) (hi : i < n) :
    Yf (MobiusStrip.mk R (-w) n) i j = Yf (MobiusStrip.mk R w n) (n - 1 - i) j := by
  unfold Yf
  rw [vF_neg_w R w n i hn hi]
  rfl

/-- Negating `w` reverses the rows of the `Z` grid. -/
theorem Zf_neg_w (R w : ℝ) (n i j : ℕ) (hn : 2 ≤ n) (hi : i < n) :
    Zf (MobiusStrip.mk R (-w) n) i j = Zf (MobiusStrip.mk R w n) (n - 1 - i) j := by
  unfold Zf
  rw [vF_neg_w R w n i hn hi]
  rfl

/-- The `u` step does not depend on `w`. -/
theorem dUval_neg_w (R w : ℝ) (n : ℕ) :
    dUval (MobiusStrip.mk R (-w) n) = dUval (MobiusStrip.mk R w n) := rfl

/-- Negating `w` negates the `v` step `dV = v[1] - v[0]`. -/
theorem dVval_neg_w (R w : ℝ) (n : ℕ) :
    dVval (MobiusStrip.mk R (-w) n) = -dVval (MobiusStrip.mk R w n) := by
  unfold dVval vF linspaceF
  push_cast
  ring

/-- `numpy.gradient` of a reversed sample sequence with negated spacing is the
reversed gradient: if `a' k = a (n - 1 - k)` on the grid then
`grad1 a' (-h) n i = grad1 a h n (n - 1 - i)`. -/
theorem grad1_reflect (a a' : ℕ → ℝ) (h : ℝ) (n : ℕ) (hn : 2 ≤ n) (i : ℕ) (hi : i < n)
    (hagree : ∀ k, k < n → a' k = a (n - 1 - k)) :
    grad1 a' (-h) n i = grad1 a h n (n - 1 - i) := by
  unfold grad1
  by_cases hi0 : i = 0
  · subst hi0
    rw [if_pos rfl, if_neg (by omega : ¬(n - 1 - 0 = 0)),
      if_pos (by omega : n - 1 - 0 = n - 1)]
    rw [hagree 1 (by omega), hagree 0 (by omega),
      show n - 1 - 1 = n - 2 from by omega, show n - 1 - 0 = n - 1 from by omega,
      div_neg]
    ring
  · by_cases hil : i = n - 1
    · subst hil
      rw [if_neg hi0, if_pos rfl, if_pos (by omega : n - 1 - (n - 1) = 0)]
      rw [hagree (n - 1) (by omega), hagree (n - 2) (by omega),
        show n - 1 - (n - 1) = 0 from by omega, show n - 1 - (n - 2) = 1 from by omega,
        div_neg]
      ring
    · rw [if_neg hi0, if_neg hil, if_neg (by omega : ¬(n - 1 - i = 0)),
        if_neg (by omega : ¬(n - 1 - i = n - 1))]
      rw [hagree (i + 1) (by omega), hagree (i - 1) (by omega),
        show n - 1 - (i + 1) = n - 1 - i - 1 from by omega,
        show n - 1 - (i - 1) = n - 1 - i + 1 from by omega,
        mul_neg, div_neg]
      ring

/-- Negating `w` reverses the rows of the `Xu` partial-derivative grid. -/
theorem XuW_neg_w (R w : ℝ) (n : ℕ) (dU : ℝ) (i j : ℕ) (hn : 2 ≤ n) (hi : i < n) :
    XuW (MobiusStrip.mk R (-w) n) dU i j = XuW (MobiusStrip.mk R w n) dU (n - 1 - i) j := by
  unfold XuW
  exact congrArg (fun f => grad1 f dU n j)
    (funext fun j' => Xf_neg_w R w n i j' hn hi)

/-- Negating `w` reverses the rows of the `Yu` partial-derivative grid. -/
theorem YuW_neg_w (R w : ℝ) (n : ℕ) (dU : ℝ) (i j : ℕ) (hn : 2 ≤ n) (hi : i < n) :
    YuW (MobiusStrip.mk R (-w) n) dU i j = YuW (MobiusStrip.mk R w n) dU (n - 1 - i) j := by
  unfold YuW
  exact congrArg (fun f => grad1 f dU n j)
    (funext fun j' => Yf_neg_w R w n i j' hn hi)

/-- Negating `w` reverses the rows of the `Zu` partial-derivative grid. -/
theorem ZuW_neg_w (R w : ℝ) (n : ℕ) (dU : ℝ) (i j : ℕ) (hn : 2 ≤ n) (hi : i < n) :
    ZuW (MobiusStrip.mk R (-w) n) dU i j = ZuW (MobiusStrip.mk R w n) dU (n - 1 - i) j := by
  unfold ZuW
  exact congrArg (fun f => grad1 f dU n j)
    (funext fun j' => Zf_neg_w R w n i j' hn hi)

/-- Negating `w` reverses the rows of the `Xv` partial-derivative grid (the
`v`-direction gradient also sees the negated spacing). -/
theorem XvW_neg_w (R w dV : ℝ) (n i j : ℕ) (hn : 2 ≤ n) (hi : i < n) :
    XvW (MobiusStrip.mk R (-w) n) (-dV) i j = XvW (MobiusStrip.mk R w n) dV (n - 1 - i) j := by
  unfold XvW
  exact grad1_reflect (fun i' => Xf (MobiusStrip.mk R w n) i' j)
    (fun i' => Xf (MobiusStrip.mk R (-w) n) i' j) dV n hn i hi
    (fun k hk => Xf_neg_w R w n k j hn hk)

/-- Negating `w` reverses the rows of the `Yv` partial-derivative grid. -/
theorem YvW_neg_w (R w dV : ℝ) (n i j : ℕ) (hn : 2 ≤ n) (hi : i < n) :
    YvW (MobiusStrip.mk R (-w) n) (-dV) i j = YvW (MobiusStrip.mk R w n) dV (n - 1 - i) j := by
  unfold YvW
  exact grad1_reflect (fun i' => Yf (MobiusStrip.mk R w n) i' j)
    (fun i' => Yf (MobiusStrip.mk R (-w) n) i' j) dV n hn i hi
    (fun k hk => Yf_neg_w R w n k j hn hk)

/-- Negating `w` reverses the rows of the `Zv` partial-derivative grid. -/
theorem ZvW_neg_w (R w dV : ℝ) (n i j : ℕ) (hn : 2 ≤ n) (hi : i < n) :
    ZvW (MobiusStrip.mk R (-w) n) (-dV) i j = ZvW (MobiusStrip.mk R w n) dV (n - 1 - i) j := by
  unfold ZvW
  exact grad1_reflect (fun i' => Zf (MobiusStrip.mk R w n) i' j)
    (fun i' => Zf (MobiusStrip.mk R (-w) n) i' j) dV n hn i hi
    (fun k hk => Zf_neg_w R w n k j hn hk)

/-- Negating `w` reverses the rows of the cross-product-magnitude grid. -/
theorem crossMagW_neg_w (R w dV : ℝ) (n i j : ℕ) (hn : 2 ≤ n) (hi : i < n) :
    crossMagW (MobiusStrip.mk R (-w) n) (dUval (MobiusStrip.mk R w n)) (-dV) i j =
      crossMagW (MobiusStrip.mk R w n) (dUval (MobiusStrip.mk R w n)) dV (n - 1 - i) j := by
  unfold crossMagW
  rw [XuW_neg_w R w n _ i j hn hi, YuW_neg_w R w n _ i j hn hi, ZuW_neg_w R w n _ i j hn hi,
    XvW_neg_w R w dV n i j hn hi, YvW_neg_w R w dV n i j hn hi, ZvW_neg_w R w dV n i j hn hi]

/-- Negating `w` negates the computed surface area: the cross-magnitude grid
is row-reversed (same sum) while the factor `dV` flips sign. -/
theorem surfaceAreaVal_neg_w (R w : ℝ) (n : ℕ) (hn : 2 ≤ n) :
    surfaceAreaVal (MobiusStrip.mk R (-w) n) = -surfaceAreaVal (MobiusStrip.mk R w n) := by
  unfold surfaceAreaVal
  rw [dUval_neg_w R w n, dVval_neg_w R w n]
  show (∑ i ∈ Finset.range n, ∑ j ∈ Finset.range n,
      crossMagW (MobiusStrip.mk R (-w) n) (dUval (MobiusStrip.mk R w n))
        (-dVval (MobiusStrip.mk R w n)) i j)
      * dUval (MobiusStrip.mk R w n) * -dVval (MobiusStrip.mk R w n)
    = -((∑ i ∈ Finset.range n, ∑ j ∈ Finset.range n,
      crossMagW (MobiusStrip.mk R w n) (dUval (MobiusStrip.mk R w n))
        (dVval (MobiusStrip.mk R w n)) i j)
      * dUval (MobiusStrip.mk R w n) * dVval (MobiusStrip.mk R w n))
  have hsum : (∑ i ∈ Finset.range n, ∑ j ∈ Finset.range n,
      crossMagW (MobiusStrip.mk R (-w) n) (dUval (MobiusStrip.mk R w n))
        (-dVval (MobiusStrip.mk R w n)) i j)
      = ∑ i ∈ Finset.range n, ∑ j ∈ Finset.range n,
      crossMagW (MobiusStrip.mk R w n) (dUval (MobiusStrip.mk R w n))
        (dVval (MobiusStrip.mk R w n)) i j := by
    rw [← Finset.sum_range_reflect (fun i => ∑ j ∈ Finset.range n,
      crossMagW (MobiusStrip.mk R w n) (dUval (MobiusStrip.mk R w n))
        (dVval (MobiusStrip.mk R w n)) i j) n]
    refine Finset.sum_congr rfl fun i hi => Finset.sum_congr rfl fun j _ => ?_
    rw [Finset.mem_range] at hi
    exact crossMagW_neg_w R w (dVval (MobiusStrip.mk R w n)) n i j hn hi
  rw [hsum]
  ring

/-! ### Concrete evaluation at `R = 1`, `w = ±2`, `n = 3` -/

theorem uF3_0 : uF (MobiusStrip.mk 1 2 3) 0 = 0 := by norm_num [uF, linspaceF]

theorem uF3_1 : uF (MobiusStrip.mk 1 2 3) 1 = π := by norm_num [uF, linspaceF]

theorem vF3_0 : vF (MobiusStrip.mk 1 2 3) 0 = -1 := by norm_num [vF, linspaceF]

theorem vF3_1 : vF (MobiusStrip.mk 1 2 3) 1 = 0 := by norm_num [vF, linspaceF]

theorem dU3 : dUval (MobiusStrip.mk 1 2 3) = π := by
  unfold dUval
  rw [uF3_1, uF3_0, sub_zero]

theorem dU3n : dUval (MobiusStrip.mk 1 (-2) 3) = π := dU3

theorem dV3 : dVval (MobiusStrip.mk 1 2 3) = 1 := by
  unfold dVval
  rw [vF3_1, vF3_0]
  norm_num

theorem dV3n : dVval (MobiusStrip.mk 1 (-2) 3) = -1 := by
  norm_num [dVval, vF, linspaceF]

theorem Xf3_00 : Xf (MobiusStrip.mk 1 2 3) 0 0 = 0 := by
  unfold Xf
  rw [uF3_0, vF3_0]
  norm_num

theorem Xf3_01 : Xf (MobiusStrip.mk 1 2 3) 0 1 = -1 := by
  unfold Xf
  rw [uF3_1, vF3_0]
  norm_num [Real.cos_pi_div_two, Real.cos_pi]

theorem Xf3_10 : Xf (MobiusStrip.mk 1 2 3) 1 0 = 1 := by
  unfold Xf
  rw [uF3_0, vF3_1]
  norm_num

theorem Yf3_00 : Yf (MobiusStrip.mk 1 2 3) 0 0 = 0 := by
  unfold Yf
  rw [uF3_0]
  norm_num

theorem Yf3_01 : Yf (MobiusStrip.mk 1 2 3) 0 1 = 0 := by
  unfold Yf
  rw [uF3_1]
  norm_num [Real.sin_pi]

theorem Yf3_10 : Yf (MobiusStrip.mk 1 2 3) 1 0 = 0 := by
  unfold Yf
  rw [uF3_0]
  norm_num

theorem Zf3_00 : Zf (MobiusStrip.mk 1 2 3) 0 0 = 0 := by
  unfold Zf
  rw [uF3_0]
  norm_num

theorem Zf3_01 : Zf (MobiusStrip.mk 1 2 3) 0 1 = -1 := by
  unfold Zf
  rw [uF3_1, vF3_0]
  norm_num [Real.sin_pi_div_two]

theorem Zf3_10 : Zf (MobiusStrip.mk 1 2 3) 1 0 = 0 := by
  unfold Zf
  rw [uF3_0, vF3_1]
  norm_num

/-- The cross-product-magnitude at cell `(0, 0)` of the `R = 1`, `w = 2`,
`n = 3` instance is `1 / π`. -/
theorem crossMag3_00 : crossMagW (MobiusStrip.mk 1 2 3) π 1 0 0 = 1 / π := by
  unfold crossMagW XuW YuW ZuW XvW YvW ZvW grad1
  norm_num [Xf3_00, Xf3_01, Xf3_10, Yf3_00, Yf3_01, Yf3_10, Zf3_00, Zf3_01, Zf3_10]
  rw [show ((-1 : ℝ) / π) ^ 2 = (1 / π) ^ 2 by ring, Real.sqrt_sq (by positivity), one_div]

theorem crossMagW_nonneg (m : MobiusStrip) (a b : ℝ) (i j : ℕ) :
    0 ≤ crossMagW m a b i j := Real.sqrt_nonneg _

/-- Counterexample to claim C6: at `R = 1`, `w = 2`, `n = 3` (valid `R > 0`,
`n ≥ 2`), the surface area computed for `-w` differs from the one computed
for `w`: the former is `≤ 0` while the latter is `≥ 1` (negating `w` negates
the returned value, because the step `dV = v[1] - v[0]` flips sign while the
summed cross-product magnitudes are unchanged). -/
theorem c6_cex_sign_flip :
    surfaceArea? (MobiusStrip.mk 1 (-2) 3) ≠ surfaceArea? (MobiusStrip.mk 1 2 3) := by
  have hpos : 1 ≤ surfaceAreaVal (MobiusStrip.mk 1 2 3) := by
    unfold surfaceAreaVal
    rw [dU3, dV3, show (MobiusStrip.mk (1 : ℝ) 2 3).n = 3 from rfl, mul_one]
    have h9 : 1 / π ≤ ∑ i ∈ Finset.range 3, ∑ j ∈ Finset.range 3,
        crossMagW (MobiusStrip.mk 1 2 3) π 1 i j := by
      simp only [Finset.sum_range_succ, Finset.sum_range_zero]
      rw [crossMag3_00]
      linarith [crossMagW_nonneg (MobiusStrip.mk 1 2 3) π 1 0 1,
        crossMagW_nonneg (MobiusStrip.mk 1 2 3) π 1 0 2,
        crossMagW_nonneg (MobiusStrip.mk 1 2 3) π 1 1 0,
        crossMagW_nonneg (MobiusStrip.mk 1 2 3) π 1 1 1,
        crossMagW_nonneg (MobiusStrip.mk 1 2 3) π 1 1 2,
        crossMagW_nonneg (MobiusStrip.mk 1 2 3) π 1 2 0,
        crossMagW_nonneg (MobiusStrip.mk 1 2 3) π 1 2 1,
        crossMagW_nonneg (MobiusStrip.mk 1 2 3) π 1 2 2]
    have hmul := mul_le_mul_of_nonneg_right h9 (le_of_lt Real.pi_pos)
    rw [show 1 / π * π = 1 from by field_simp] at hmul
    exact hmul
  have hneg : surfaceAreaVal (MobiusStrip.mk 1 (-2) 3) ≤ 0 := by
    unfold surfaceAreaVal
    rw [dU3n, dV3n, show (MobiusStrip.mk (1 : ℝ) (-2) 3).n = 3 from rfl]
    have hSn : 0 ≤ ∑ i ∈ Finset.range 3, ∑ j ∈ Finset.range 3,
        crossMagW (MobiusStrip.mk 1 (-2) 3) π (-1) i j :=
      Finset.sum_nonneg fun i _ => Finset.sum_nonneg fun j _ => crossMagW_nonneg _ _ _ _ _
    nlinarith [Real.pi_pos, hSn]
  rw [surfaceArea?_eq (MobiusStrip.mk 1 (-2) 3) (by decide),
    surfaceArea?_eq (MobiusStrip.mk 1 2 3) (by decide)]
  intro h
  have hval := Option.some.inj h
  linarith

/-- Claim C6 as amended: for every `R`, `w` and `n ≥ 2`, negating `w` negates
the value returned by `surface_area` (so only the absolute value of the area
is invariant): the cross-product-magnitude sum is unchanged (the `v` rows are
merely reversed), but the factor `dV = v[1] - v[0]` flips sign. -/
theorem c6_amended_sign_antisymmetry (R w : ℝ) (n : ℕ) (hn : 2 ≤ n) :
    surfaceArea? (MobiusStrip.mk R (-w) n) =
      some (-surfaceAreaVal (MobiusStrip.mk R w n)) ∧
    surfaceArea? (MobiusStrip.mk R w n) =
      some (surfaceAreaVal (MobiusStrip.mk R w n)) := by
  refine ⟨?_, surfaceArea?_eq _ hn⟩
  rw [surfaceArea?_eq _ hn, surfaceAreaVal_neg_w R w n hn]

/-- Witness for the amended C6 at `R = 1`, `w = 1`, `n = 2`. -/
theorem c6_amended_sign_antisymmetry_witness :
    2 ≤ 2 ∧
    (surfaceArea? (MobiusStrip.mk 1 (-1) 2) =
      some (-surfaceAreaVal (MobiusStrip.mk 1 1 2)) ∧
    surfaceArea? (MobiusStrip.mk 1 1 2) =
      some (surfaceAreaVal (MobiusStrip.mk 1 1 2))) :=
  ⟨by decide, c6_amended_sign_antisymmetry 1 1 2 (by decide)⟩

end MobiusStrip

end
